import Mathlib

/-!
Verification of core properties of the murmapple Apple IIe emulator.

This file gives a shallow embedding of the relevant parts of the sources:
the paged virtual-RAM manager and memory bank copy loops (mii_bank.c,
mii_bank.h), the RP2350 VBL timer (mii_video.c), the audio click
reconstruction (mii_audio_i2s.c), the SmartPort block device trap
(mii_smartport.c), the disk loader (disk_loader.c) and the RP2350 video
renderers (mii_video.c), and proves or refutes the stated properties.

Machine integers are modelled as Nat (with explicit reductions modulo
2^8 / 2^16 / 2^64 where wraparound matters); byte arrays are total maps
Nat → Nat; fallible operations return Option.
-/

set_option maxHeartbeats 1000000
set_option maxRecDepth 40000

/-- Pointwise update of a total map at one index. -/
def upd {α : Type} (f : Nat → α) (i : Nat) (v : α) : Nat → α :=
  fun x => if x = i then v else f x

/-! ## Memory bank: direct-storage copy loops (mii_bank.c)

`mii_bank_write` / `mii_bank_read` on a bank whose storage is a raw byte
array copy with `do { bank->ua.raw[phy++] = *data++; } while (--len);`
where `len` is a `uint16_t`: the body runs once, then `len` is
decremented modulo 2^16 and the loop repeats while the counter is
nonzero, so the body executes `((len - 1) mod 2^16) + 1` times. -/

/-- Number of body executions of the do-while copy loop for a 16-bit
counter that is decremented before the test. -/
def bankCopyIterations (len : Nat) : Nat := (len + 65535) % 65536 + 1

/-- `n` executions of the write-loop body `bank->ua.raw[phy++] = *data++`. -/
def rawWriteN (mem : Nat → Nat) (data : Nat → Nat) (phy : Nat) : Nat → (Nat → Nat)
  | 0 => mem
  | n + 1 => rawWriteN (upd mem phy (data 0)) (fun i => data (i + 1)) (phy + 1) n

/-- Direct (non-paged) storage path of mii_bank_write: the do-while copy. -/
def mii_bank_write_raw (mem data : Nat → Nat) (phy len : Nat) : Nat → Nat :=
  rawWriteN mem data phy (bankCopyIterations len)

/-- `n` executions of the read-loop body `*data++ = bank->ua.raw[phy++]`,
accumulating into the caller's buffer starting at position `b`. -/
def rawReadN (mem buf : Nat → Nat) (phy b : Nat) : Nat → (Nat → Nat)
  | 0 => buf
  | n + 1 => rawReadN mem (upd buf b (mem phy)) (phy + 1) (b + 1) n

/-- Direct (non-paged) storage path of mii_bank_read: the do-while copy. -/
def mii_bank_read_raw (mem buf : Nat → Nat) (phy len : Nat) : Nat → Nat :=
  rawReadN mem buf phy 0 (bankCopyIterations len)

/-! ## Paged virtual RAM (mii_bank.h / mii_bank.c)

A pool of physical 256-byte pages caches a 256-page guest space; the
swap file on SD backs evicted pages.  `v_desc[vp]` maps each guest page
to `{pinned, in_ram, lba}`; `s_desc[lba].dirty` tags changed physical
pages; `oldest_vpage` is the rolling victim pointer. -/

def RAM_PAGE_SIZE : Nat := 256

structure VramPage where
  pinned : Bool
  in_ram : Bool
  lba : Nat
deriving DecidableEq

structure Vram where
  /-- physical pool bytes, addressed `lba * 256 + off` -/
  raw : Nat → Nat
  /-- swap file bytes, addressed `vpage * 256 + off` -/
  file : Nat → Nat
  /-- guest page descriptors, index 0..255 -/
  v_desc : Nat → VramPage
  /-- per-physical-page dirty bits -/
  s_dirty : Nat → Bool
  oldest_vpage : Nat

/-- flush_vram_block: save the victim guest page `vpage` (currently cached
in physical page `v_desc[vpage].lba`) to the swap file at offset
`vpage * 256`, and mark it as no longer stored in RAM. -/
def flush_vram_block (v : Vram) (vpage : Nat) : Vram :=
  let lba := (v.v_desc vpage).lba
  { v with
    file := fun a =>
      if vpage * 256 ≤ a ∧ a < vpage * 256 + 256 then v.raw (lba * 256 + (a - vpage * 256))
      else v.file a,
    v_desc := upd v.v_desc vpage ⟨(v.v_desc vpage).pinned, false, (v.v_desc vpage).lba⟩ }

/-- read_vram_block: load guest page `vpage` from the swap file at offset
`vpage * 256` into physical page `lba_page`, make `vpage` own that page
and clear its dirty bit. -/
def read_vram_block (v : Vram) (vpage lba_page : Nat) : Vram :=
  { v with
    raw := fun a =>
      if lba_page * 256 ≤ a ∧ a < lba_page * 256 + 256 then
        v.file (vpage * 256 + (a - lba_page * 256))
      else v.raw a,
    v_desc := upd v.v_desc vpage ⟨(v.v_desc vpage).pinned, true, lba_page⟩,
    s_dirty := upd v.s_dirty lba_page false }

/-- The victim scan of get_ram_page_for: starting at `oldest_vpage` and
walking forward with 8-bit wraparound, find the first guest page that is
in RAM and not pinned.  The C loop has no explicit bound; after 256
steps it has visited every descriptor, so the scan is bounded by 256
and yields `none` exactly when the C loop would never terminate. -/
def findVictim (v : Vram) : Option Nat :=
  ((List.range 256).map (fun k => (v.oldest_vpage + k) % 256)).find?
    (fun w => (v.v_desc w).in_ram && !(v.v_desc w).pinned)

/-- get_ram_page_for (mii_bank.c): return the physical page caching the
guest page of `addr16` (the argument is a uint16_t, hence the mod 2^16).
On a miss, pick a victim, flush it to the swap file if its physical page
is dirty, then refill the freed physical page from the swap file. -/
def get_ram_page_for (v : Vram) (addr16 : Nat) : Option (Nat × Vram) :=
  let vpage := (addr16 % 65536) >>> 8
  if (v.v_desc vpage).in_ram then some ((v.v_desc vpage).lba, v)
  else
    match findVictim v with
    | none => none
    | some w =>
      let v1 : Vram := { v with oldest_vpage := (w + 1) % 256 }
      let lba := (v1.v_desc w).lba
      let v2 : Vram :=
        if v1.s_dirty lba then flush_vram_block v1 w
        else { v1 with v_desc := upd v1.v_desc w ⟨(v1.v_desc w).pinned, false, lba⟩ }
      some (lba, read_vram_block v2 vpage lba)

/-- Paged-storage loop of mii_bank_write: per page chunk, fault the page
in, mark its physical page dirty, and memcpy the chunk. -/
def bank_write_paged (v : Vram) (phy : Nat) (data : Nat → Nat) (len : Nat) : Option Vram :=
  if len = 0 then some v
  else
    let off := phy % 256
    let n := min len (256 - off)
    match get_ram_page_for v phy with
    | none => none
    | some (lba, v1) =>
      let v2 : Vram :=
        { v1 with
          s_dirty := upd v1.s_dirty lba true,
          raw := fun a =>
            if lba * 256 + off ≤ a ∧ a < lba * 256 + off + n then data (a - (lba * 256 + off))
            else v1.raw a }
      bank_write_paged v2 (phy + n) (fun i => data (i + n)) (len - n)
termination_by len
decreasing_by simp_wf; omega

/-- Paged-storage loop of mii_bank_read: per page chunk, fault the page
in and memcpy the chunk into the caller's buffer (tracked from
position `b`). -/
def bank_read_paged (v : Vram) (phy : Nat) (buf : Nat → Nat) (b : Nat) (len : Nat) :
    Option ((Nat → Nat) × Vram) :=
  if len = 0 then some (buf, v)
  else
    let off := phy % 256
    let n := min len (256 - off)
    match get_ram_page_for v phy with
    | none => none
    | some (lba, v1) =>
      let buf1 : Nat → Nat := fun i =>
        if b ≤ i ∧ i < b + n then v1.raw (lba * 256 + off + (i - b)) else buf i
      bank_read_paged v1 (phy + n) buf1 (b + n) (len - n)
termination_by len
decreasing_by simp_wf; omega

/-- A guest access through the paged bank: a one-byte read or write. -/
inductive BankOp where
  | rd (a : Nat)
  | wr (a val : Nat)
deriving DecidableEq

def BankOp.addr : BankOp → Nat
  | .rd a => a
  | .wr a _ => a

/-- Does this operation write to guest address `x`? -/
def BankOp.writesTo (op : BankOp) (x : Nat) : Bool :=
  match op with
  | .rd _ => false
  | .wr a _ => a == x

def execOp (v : Vram) : BankOp → Option Vram
  | .rd a => (bank_read_paged v a (fun _ => 0) 0 1).map Prod.snd
  | .wr a val => bank_write_paged v a (fun _ => val) 1

def execOps (v : Vram) : List BankOp → Option Vram
  | [] => some v
  | op :: rest =>
    match execOp v op with
    | none => none
    | some v1 => execOps v1 rest

/-- Effect of an operation on the abstract guest memory. -/
def absOp (A : Nat → Nat) : BankOp → (Nat → Nat)
  | .rd _ => A
  | .wr a val => upd A a val

def absOps (A : Nat → Nat) : List BankOp → (Nat → Nat)
  | [] => A
  | op :: rest => absOps (absOp A op) rest

/-- The cache-coherence invariant tying a `Vram` state to the abstract
guest memory `A`: cached pages are backed by their physical page, absent
pages by the swap file, clean cached pages also agree with the file,
distinct cached pages occupy distinct physical pages, pinned pages are
cached, and at least one unpinned cached page exists (so the victim scan
terminates). -/
def vramModels (v : Vram) (A : Nat → Nat) : Prop :=
  (∀ vp, vp < 256 → ∀ off, off < 256 → (v.v_desc vp).in_ram = true →
      v.raw ((v.v_desc vp).lba * 256 + off) = A (vp * 256 + off)) ∧
  (∀ vp, vp < 256 → ∀ off, off < 256 → (v.v_desc vp).in_ram = false →
      v.file (vp * 256 + off) = A (vp * 256 + off)) ∧
  (∀ vp, vp < 256 → ∀ off, off < 256 → (v.v_desc vp).in_ram = true →
      v.s_dirty ((v.v_desc vp).lba) = false → v.file (vp * 256 + off) = A (vp * 256 + off)) ∧
  (∀ vp1, vp1 < 256 → ∀ vp2, vp2 < 256 → (v.v_desc vp1).in_ram = true →
      (v.v_desc vp2).in_ram = true → (v.v_desc vp1).lba = (v.v_desc vp2).lba → vp1 = vp2) ∧
  (∀ vp, vp < 256 → (v.v_desc vp).pinned = true → (v.v_desc vp).in_ram = true) ∧
  (∃ w, w < 256 ∧ (v.v_desc w).in_ram = true ∧ (v.v_desc w).pinned = false)

/-- A small concrete paged-RAM state for evaluating the coherence
theorem: guest page 0 alone is cached (in physical page 0, clean,
unpinned), every other guest page lives in the swap file, and all
bytes are zero. -/
def vramDemo : Vram :=
  { raw := fun _ => 0,
    file := fun _ => 0,
    v_desc := fun vp => if vp = 0 then ⟨false, true, 0⟩ else ⟨false, false, 0⟩,
    s_dirty := fun _ => false,
    oldest_vpage := 0 }

/-! ## RP2350 VBL timer (mii_video.c) -/

def MII_VBL_DOWN_CYCLES : Nat := 12480
def MII_VBL_UP_CYCLES : Nat := 4550

structure VblState where
  /-- 0 = visible, 1 = vblank -/
  vbl_phase : Nat
  /-- the byte stored at the SWVBL soft-switch location -/
  swvbl : Nat
  frame_count : Nat
deriving DecidableEq

/-- mii_video_vbl_timer_cb: at the end of the visible area set bit 7 of
SWVBL, advance the frame counter and wait the blanking duration; at the
end of blanking clear the bit and wait the visible duration.  The return
value (scaled by the speed multiplier) becomes the timer's new
remaining-cycle count. -/
def mii_video_vbl_timer_cb (speed : Nat) (v : VblState) : VblState × Nat :=
  if v.vbl_phase = 0 then (⟨1, 0x80, v.frame_count + 1⟩, MII_VBL_UP_CYCLES * speed)
  else (⟨0, 0x00, v.frame_count⟩, MII_VBL_DOWN_CYCLES * speed)

structure VblTimer where
  st : VblState
  remaining : Nat
deriving DecidableEq

/-- Modelled from the spec: the timer wheel (mii_timer, whose source is
not among the provided files) decrements a timer's `remaining` by every
executed CPU cycle; when it reaches 0 the callback fires and its return
value becomes the new `remaining`.  One call is one executed cycle, at
speed 1. -/
def vblCycleStep (t : VblTimer) : VblTimer :=
  if t.remaining ≤ 1 then
    let r := mii_video_vbl_timer_cb 1 t.st
    ⟨r.1, r.2⟩
  else ⟨t.st, t.remaining - 1⟩

/-- Timer state as registered by mii_video_init on RP2350: visible phase,
SWVBL clear, MII_VBL_DOWN_CYCLES remaining. -/
def vblTimerInit : VblTimer := ⟨⟨0, 0x00, 0⟩, MII_VBL_DOWN_CYCLES⟩

def vblAfter (c : Nat) : VblTimer := vblCycleStep^[c] vblTimerInit

/-! ## Audio click reconstruction (mii_audio_i2s.c) -/

def SAMPLE_BUFFER_SIZE : Nat := 8192
def SAMPLE_BUFFER_OFFSET : Nat := 512
def MII_I2S_SAMPLE_RATE : Nat := 44100

/-- `(MII_I2S_SAMPLE_RATE << 16) / 1020484`, the 16.16 fixed-point
samples-per-CPU-cycle ratio. -/
def samples_per_cycle_frac : Nat := (MII_I2S_SAMPLE_RATE <<< 16) / 1020484

structure SampleBuffer where
  samples : Nat → Int
  write_index : Nat
  read_index : Nat
  /-- uint64_t, 16.16 fixed point -/
  curr_sample_frac : Nat
  speaker_value : Int

/-- Reinterpret a uint64 value as an int64. -/
def toInt64 (n : Nat) : Int := if n < 2 ^ 63 then (n : Int) else (n : Int) - 2 ^ 64

/-- `(a - b) mod 2^64` on uint64 operands. -/
def wrapSub64 (a b : Nat) : Nat := (a + 2 ^ 64 - b % 2 ^ 64) % 2 ^ 64

/-- The fill loop of mii_audio_speaker_click: store `value` and advance
the write cursor, bumping the read cursor out of the way when the ring
would overrun. -/
def clickFill (samples : Nat → Int) (idx ridx : Nat) (value : Int) :
    Nat → (Nat → Int) × Nat × Nat
  | 0 => (samples, idx, ridx)
  | n + 1 =>
    let samples1 := upd samples idx value
    let idx1 := (idx + 1) % SAMPLE_BUFFER_SIZE
    let ridx1 := if idx1 = ridx then (ridx + 1) % SAMPLE_BUFFER_SIZE else ridx
    clickFill samples1 idx1 ridx1 value n

/-- mii_audio_speaker_click: convert the click cycle to an absolute
sample position, compute the delta from the buffer's current sample
position, and either just toggle (delta ≤ 0), re-anchor after silence
(delta > SAMPLE_BUFFER_OFFSET), or fill `delta` ring entries with the
current speaker value; finally invert the speaker sign. -/
def mii_audio_speaker_click (sb : SampleBuffer) (cycle : Nat) : SampleBuffer :=
  let new_sample_frac := (cycle * samples_per_cycle_frac) % 2 ^ 64
  let new_sample := new_sample_frac >>> 16
  let curr_sample := sb.curr_sample_frac >>> 16
  let delta : Int := toInt64 (wrapSub64 new_sample curr_sample)
  if delta ≤ 0 then { sb with speaker_value := -sb.speaker_value }
  else if (SAMPLE_BUFFER_OFFSET : Int) < delta then
    { sb with
      write_index := (sb.read_index + SAMPLE_BUFFER_OFFSET) % SAMPLE_BUFFER_SIZE,
      curr_sample_frac := new_sample_frac,
      speaker_value := -sb.speaker_value }
  else
    let fill_count := delta.toNat
    let r := clickFill sb.samples sb.write_index sb.read_index sb.speaker_value
              (min fill_count SAMPLE_BUFFER_SIZE)
    { sb with
      samples := r.1, write_index := r.2.1, read_index := r.2.2,
      curr_sample_frac := new_sample_frac,
      speaker_value := -sb.speaker_value }

/-- Sample buffer state established by mii_audio_i2s_init. -/
def audioInitBuffer : SampleBuffer :=
  { samples := fun _ => 0, write_index := SAMPLE_BUFFER_OFFSET, read_index := 0,
    curr_sample_frac := 0, speaker_value := 256 }

/-! ## SmartPort trap (mii_smartport.c) -/

def MII_SM_DRIVE_COUNT : Nat := 2

structure SmResult where
  /-- processor carry flag after the trap -/
  carry : Bool
  /-- accumulator after the trap -/
  acc : Nat
deriving DecidableEq

/-- The Read Block command (spCommand = 1) of _mii_sm_callback.  `drives u`
is the size of the file mounted on drive `u` (`none` when empty);
`readOk` is the outcome of the FatFS transfer in mii_dd_read. -/
def smartport_read_block (drives : Nat → Option Nat) (pcount unit blk : Nat)
    (readOk : Bool) : SmResult :=
  if pcount ≠ 3 then ⟨true, 0⟩
  else if unit = 0 ∨ MII_SM_DRIVE_COUNT ≤ unit then ⟨true, 0x28⟩
  else
    match drives (unit - 1) with
    | none => ⟨true, 0x2f⟩
    | some size =>
      if size / 512 ≤ blk then ⟨true, 0x2d⟩
      else if readOk then ⟨false, 0⟩ else ⟨true, 0x2d⟩

/-! ## Disk loader: DSK sector maps (disk_loader.c) -/

def DSK_SECTOR_SIZE : Nat := 256
def DSK_TRACKS : Nat := 35
def DSK_SECTORS : Nat := 16

/-- DOS 3.3 physical sector order (index is physical sector). -/
def DO_SECMAP : List Nat :=
  [0x0, 0x7, 0xE, 0x6, 0xD, 0x5, 0xC, 0x4, 0xB, 0x3, 0xA, 0x2, 0x9, 0x1, 0x8, 0xF]

/-- ProDOS physical sector order (index is physical sector). -/
def PO_SECMAP : List Nat :=
  [0x0, 0x8, 0x1, 0x9, 0x2, 0xa, 0x3, 0xb, 0x4, 0xc, 0x5, 0xd, 0x6, 0xe, 0x7, 0xf]

/-- ASCII tolower, as used by strcasecmp. -/
def cLower (c : Char) : Char :=
  if 65 ≤ c.toNat ∧ c.toNat ≤ 90 then Char.ofNat (c.toNat + 32) else c

/-- strcasecmp(a, b) == 0 for ASCII strings. -/
def strCaseEq (a b : List Char) : Bool := a.map cLower == b.map cLower

/-- strrchr: the suffix of the string starting at the last occurrence of
`c`, or `none` when `c` does not occur. -/
def strrchrSuffix (c : Char) : List Char → Option (List Char)
  | [] => none
  | a :: rest =>
    match strrchrSuffix c rest with
    | some r => some r
    | none => if a = c then some (a :: rest) else none

/-- Sector map selection of disk_load_floppy_dsk_from_fatfs: the ProDOS
map when strrchr finds a final extension that strcasecmp-equals ".po"
(or ".PO"), the DOS 3.3 map otherwise. -/
def dsk_secmap_for (pathname : List Char) : List Nat :=
  match strrchrSuffix '.' pathname with
  | none => DO_SECMAP
  | some dot =>
    if strCaseEq dot ['.', 'p', 'o'] || strCaseEq dot ['.', 'P', 'O'] then PO_SECMAP
    else DO_SECMAP

/-- The file offset from which disk_load_floppy_dsk_from_fatfs reads the
256 bytes of physical sector `phys_sector` of `track`:
`(DSK_SECTORS * track + secmap[phys_sector]) * DSK_SECTOR_SIZE`. -/
def dsk_sector_offset (pathname : List Char) (track phys_sector : Nat) : Nat :=
  (DSK_SECTORS * track + (dsk_secmap_for pathname).getD phys_sector 0) * DSK_SECTOR_SIZE

/-- The selection condition in the words of the claim: the filename's
final extension is `.po`, case-insensitively.  The extension is the part
after the last dot, so this is exactly: the lowercased name ends with
".po" (the two letters contain no dot, so that dot is the last one). -/
def spec_ext_is_po (p : List Char) : Bool :=
  (p.map cLower).reverse.take 3 == ['o', 'p', '.']

/-! ## Disk loader: BDSK container (disk_loader.c)

The BDSK container types (bdsk_header_t, bdsk_track_desc_t) and the
BDSK_* constants live in a header that is not among the provided
sources.  Modelled from the spec: the header is 8 bytes
`{magic "BDSK" : [u8;4], version : u16 le = 1, tracks : u16 le = 35}`,
each track record is a 4-byte little-endian `bit_count` followed by
6656 data bytes, and the whole file is 8 + 35·(4+6656) bytes. -/

def BDSK_HEADER_SIZE : Nat := 8
def BDSK_DESC_SIZE : Nat := 4
def BDSK_TRACK_DATA_SIZE : Nat := 6656
def BDSK_TRACKS : Nat := 35
def BDSK_MAX_BITS : Nat := 6656 * 8

/-- Track record offset as computed in disk_dump_current_track and
disk_load_floppy_bdsk_track_from_fatfs:
`sizeof(bdsk_header_t) + track_id * (sizeof(bdsk_track_desc_t) + BDSK_TRACK_DATA_SIZE)`. -/
def bdsk_track_offset (track_id : Nat) : Nat :=
  BDSK_HEADER_SIZE + track_id * (BDSK_DESC_SIZE + BDSK_TRACK_DATA_SIZE)

/-- Total size of a complete BDSK container. -/
def BDSK_BYTES : Nat := bdsk_track_offset BDSK_TRACKS

/-- The 8 header bytes written by disk_dump_current_track: magic "BDSK",
u16 le version 1, u16 le track count 35 (values modelled from the spec;
the source assigns BDSK_MAGIC / BDSK_VERSION / DSK_TRACKS). -/
def bdsk_header_bytes : List Nat := [66, 68, 83, 75, 1, 0, 35, 0]

/-! ## Disk loader: mount with state preservation (disk_loader.c)

The floppy structure and mii_floppy_init live in mii_floppy.h /
mii_floppy.c, which are not among the provided sources.  Modelled from
the spec: a drive holds `{motor, stepper, qtrack, bit_position,
write_protected}` plus a 160-entry quarter-track map and 35 tracks;
re-initialisation resets every field to its boot value. -/

structure FloppyTrack where
  dirty : Bool
  virgin : Bool
  bit_count : Nat
deriving DecidableEq

structure Floppy where
  motor : Nat
  stepper : Nat
  qtrack : Nat
  bit_position : Nat
  write_protected : Bool
  track_id : Nat → Nat
  tracks : Nat → FloppyTrack

/-- Modelled from the spec: mii_floppy_init clears all drive state
(motor off, stepper and head position reset, all tracks virgin, the
quarter-track map at its default with physical tracks at multiples of
four). -/
def mii_floppy_init (_f : Floppy) : Floppy :=
  { motor := 0, stepper := 0, qtrack := 0, bit_position := 0, write_protected := false,
    track_id := fun q => q / 4, tracks := fun _ => ⟨false, true, 0⟩ }

/-- State effect of disk_write_track on the floppy: the dirty track is
persisted to the BDSK side file and its dirty bit cleared
(disk_write_floppy_bdsk_track_to_fatfs); no head state changes. -/
def disk_write_track_model (f : Floppy) (t : Nat) : Floppy :=
  { f with tracks := fun x => if x = t then ⟨false, (f.tracks t).virgin, (f.tracks t).bit_count⟩
                              else f.tracks x }

/-- State effect of disk_load_floppy_bdsk_track_from_fatfs on the floppy:
on success the track's bit count is set and its virgin/dirty flags
cleared; out-of-range tracks and invalid bit counts fail and leave the
structure unchanged. -/
def disk_load_floppy_bdsk_track (f : Floppy) (track_id bit_count : Nat) : Floppy :=
  if DSK_TRACKS ≤ track_id then f
  else if bit_count = 0 ∨ BDSK_MAX_BITS < bit_count then f
  else { f with tracks := fun t => if t = track_id then ⟨false, false, bit_count⟩ else f.tracks t }

/-- Floppy-state pipeline of disk_mount_to_emulator: flush the previous
dirty track, save motor/stepper/qtrack/bit_position, re-initialise the
floppy, restore the four fields when preserve_state is set, then run
the image conversion / track load (abstracted as `load`). -/
def disk_mount_to_emulator_floppy (f : Floppy) (preserve_state : Bool)
    (load : Floppy → Floppy) : Floppy :=
  let old_track := f.track_id f.qtrack
  let f0 := if f.write_protected = false ∧ old_track < 35 ∧ (f.tracks old_track).dirty = true
            then disk_write_track_model f old_track else f
  let saved_motor := f0.motor
  let saved_stepper := f0.stepper
  let saved_qtrack := f0.qtrack
  let saved_bit_position := f0.bit_position
  let f1 := mii_floppy_init f0
  let f2 := if preserve_state then
      { f1 with motor := saved_motor, stepper := saved_stepper,
                qtrack := saved_qtrack, bit_position := saved_bit_position }
    else f1
  load f2

/-! ## RP2350 video renderers: display page selection (mii_video.c) -/

structure SwState where
  store80 : Bool
  page2 : Bool
  text : Bool
  mixed : Bool
  hires : Bool
  col80 : Bool
  dhires : Bool
deriving DecidableEq

/-- Page-2 selection of mii_video_render_text40_rp2350 (and of the mixed
text renderer): `SWW_GETSTATE(sw, SW80STORE) ? 0 : SWW_GETSTATE(sw, SWPAGE2)`. -/
def render_text40_page2 (sw : SwState) : Bool := if sw.store80 then false else sw.page2

def render_text40_base (sw : SwState) : Nat :=
  0x400 + 0x400 * (if render_text40_page2 sw then 1 else 0)

/-- Page-2 selection of mii_video_render_hires_rp2350. -/
def render_hires_page2 (sw : SwState) : Bool := if sw.store80 then false else sw.page2

def render_hires_base (sw : SwState) : Nat := if render_hires_page2 sw then 0x4000 else 0x2000

/-- Page-2 selection of mii_video_render_dhires_rp2350. -/
def render_dhires_page2 (sw : SwState) : Bool := if sw.store80 then false else sw.page2

def render_dhires_base (sw : SwState) : Nat :=
  0x2000 + 0x2000 * (if render_dhires_page2 sw then 1 else 0)

/-- Page-2 selection of mii_video_render_lores_rp2350:
`!!(mii->sw_state & M_SWPAGE2)` -- the raw PAGE2 bit, with no 80STORE
override. -/
def render_lores_page2 (sw : SwState) : Bool := sw.page2

def render_lores_base (sw : SwState) : Nat := if render_lores_page2 sw then 0x800 else 0x400

/-! ## Helper lemmas -/

theorem upd_eval {α : Type} (f : Nat → α) (i : Nat) (v : α) (x : Nat) :
    upd f i v x = if x = i then v else f x := rfl

theorem rawWriteN_eval (n : Nat) : ∀ (mem data : Nat → Nat) (phy a : Nat),
    rawWriteN mem data phy n a = if phy ≤ a ∧ a < phy + n then data (a - phy) else mem a := by
  induction n with
  | zero =>
    intro mem data phy a
    simp only [rawWriteN]
    rw [if_neg (by omega)]
  | succ n ih =>
    intro mem data phy a
    rw [rawWriteN, ih]
    by_cases h1 : phy + 1 ≤ a ∧ a < phy + 1 + n
    · rw [if_pos h1, if_pos (show phy ≤ a ∧ a < phy + (n + 1) by omega)]
      congr 1
      omega
    · rw [if_neg h1, upd_eval]
      by_cases h2 : a = phy
      · rw [if_pos h2, if_pos (show phy ≤ a ∧ a < phy + (n + 1) by omega)]
        rw [h2]
        simp
      · rw [if_neg h2, if_neg (by omega)]

theorem rawReadN_eval (n : Nat) : ∀ (mem buf : Nat → Nat) (phy b i : Nat),
    rawReadN mem buf phy b n i = if b ≤ i ∧ i < b + n then mem (phy + (i - b)) else buf i := by
  induction n with
  | zero =>
    intro mem buf phy b i
    simp only [rawReadN]
    rw [if_neg (by omega)]
  | succ n ih =>
    intro mem buf phy b i
    rw [rawReadN, ih]
    by_cases h1 : b + 1 ≤ i ∧ i < b + 1 + n
    · rw [if_pos h1, if_pos (show b ≤ i ∧ i < b + (n + 1) by omega)]
      congr 1
      omega
    · rw [if_neg h1, upd_eval]
      by_cases h2 : i = b
      · rw [if_pos h2, if_pos (show b ≤ i ∧ i < b + (n + 1) by omega)]
        rw [h2]
        simp
      · rw [if_neg h2, if_neg (by omega)]

/-! ## Claim theorems -/

/-- Claim C10: on direct (non-paged) storage, the do-while copy loops of
mii_bank_write and mii_bank_read decrement the 16-bit length before
testing it, so with len ≥ 1 (and len within uint16_t range) they
transfer exactly len bytes — the write stores data[k] at phy+k for
k < len and leaves every other byte unchanged, and the read fills
buffer positions 0..len-1 from phy..phy+len-1 and leaves the rest of
the buffer unchanged — while a call with len = 0 wraps the counter and
runs the body 65536 times. -/
theorem bank_raw_len_transfer (mem data buf : Nat → Nat) (phy len : Nat)
    (h1 : 1 ≤ len) (h2 : len ≤ 65535) :
    (∀ k, k < len → mii_bank_write_raw mem data phy len (phy + k) = data k) ∧
    (∀ a, a < phy ∨ phy + len ≤ a → mii_bank_write_raw mem data phy len a = mem a) ∧
    (∀ k, k < len → mii_bank_read_raw mem buf phy len k = mem (phy + k)) ∧
    (∀ i, len ≤ i → mii_bank_read_raw mem buf phy len i = buf i) ∧
    bankCopyIterations 0 = 65536 := by
  have hiter : bankCopyIterations len = len := by
    unfold bankCopyIterations
    omega
  refine ⟨?_, ?_, ?_, ?_, by unfold bankCopyIterations; omega⟩
  · intro k hk
    unfold mii_bank_write_raw
    rw [hiter, rawWriteN_eval, if_pos (by omega)]
    congr 1
    omega
  · intro a ha
    unfold mii_bank_write_raw
    rw [hiter, rawWriteN_eval, if_neg (by omega)]
  · intro k hk
    unfold mii_bank_read_raw
    rw [hiter, rawReadN_eval, if_pos (by omega)]
    simp
  · intro i hi
    unfold mii_bank_read_raw
    rw [hiter, rawReadN_eval, if_neg (by omega)]

theorem bank_raw_len_transfer_witness :
    (1 ≤ 3 ∧ 3 ≤ 65535) ∧
    mii_bank_write_raw (fun _ => 0) (fun i => i + 10) 100 3 101 = 11 ∧
    mii_bank_write_raw (fun _ => 0) (fun i => i + 10) 100 3 103 = 0 := by
  refine ⟨⟨by decide, by decide⟩, ?_, ?_⟩
  · exact (bank_raw_len_transfer (fun _ => 0) (fun i => i + 10) (fun _ => 0) 100 3
      (by decide) (by decide)).1 1 (by decide)
  · exact (bank_raw_len_transfer (fun _ => 0) (fun i => i + 10) (fun _ => 0) 100 3
      (by decide) (by decide)).2.1 103 (Or.inr (by decide))

/-- Claim C9 (code_bug evidence): the text, hi-res and double hi-res
RP2350 renderers select display page 2 exactly when PAGE2 is set and
80STORE is clear, but the lo-res renderer uses the raw PAGE2 bit: with
both 80STORE and PAGE2 set it renders from page 2 ($800) although the
claim requires page 1 ($400). -/
theorem render_page2_selection :
    (∀ sw : SwState, render_text40_page2 sw = (sw.page2 && !sw.store80)) ∧
    (∀ sw : SwState, render_hires_page2 sw = (sw.page2 && !sw.store80)) ∧
    (∀ sw : SwState, render_dhires_page2 sw = (sw.page2 && !sw.store80)) ∧
    (∀ sw : SwState, render_text40_base sw = if sw.page2 && !sw.store80 then 0x800 else 0x400) ∧
    (∀ sw : SwState, render_hires_base sw = if sw.page2 && !sw.store80 then 0x4000 else 0x2000) ∧
    render_lores_page2 ⟨true, true, false, false, false, false, false⟩ = true ∧
    render_lores_base ⟨true, true, false, false, false, false, false⟩ = 0x800 := by
  refine ⟨?_, ?_, ?_, ?_, ?_, rfl, rfl⟩ <;>
    intro sw <;>
    simp [render_text40_page2, render_hires_page2, render_dhires_page2,
      render_text40_base, render_hires_base] <;>
    cases sw.store80 <;> cases sw.page2 <;> simp

/-- Claim C5 (code_bug evidence): the SmartPort Read Block trap with
pcount = 3 accepts only unit 1; unit 2 — the card's second drive, which
its own Get Status advertises — is rejected with carry set and
A = 0x28 even when a file is mounted and the block is in range, because
the unit check is `spUnit == 0 || spUnit >= MII_SM_DRIVE_COUNT` with
MII_SM_DRIVE_COUNT = 2.  Unit 1 behaves as the claim describes: success
with carry clear on a mounted drive and in-range block, A = 0x2F with no
mounted file, A = 0x2D for an out-of-range block; unit 0 and units ≥ 3
yield A = 0x28. -/
theorem smartport_read_block_errors :
    (∀ drives : Nat → Option Nat, ∀ blk ok, smartport_read_block drives 3 2 blk ok = ⟨true, 0x28⟩) ∧
    (∀ size blk, smartport_read_block (fun _ => some size) 3 1 blk true =
      if blk < size / 512 then ⟨false, 0⟩ else ⟨true, 0x2d⟩) ∧
    (∀ blk ok, smartport_read_block (fun _ => none) 3 1 blk ok = ⟨true, 0x2f⟩) ∧
    (∀ drives : Nat → Option Nat, ∀ blk ok, smartport_read_block drives 3 0 blk ok = ⟨true, 0x28⟩) ∧
    (∀ drives : Nat → Option Nat, ∀ u blk ok,
      smartport_read_block drives 3 (u + 3) blk ok = ⟨true, 0x28⟩) ∧
    smartport_read_block (fun _ => some 143360) 3 2 0 true = ⟨true, 0x28⟩ := by
  refine ⟨?_, ?_, ?_, ?_, ?_, rfl⟩
  · intro drives blk ok
    simp [smartport_read_block, MII_SM_DRIVE_COUNT]
  · intro size blk
    simp only [smartport_read_block, MII_SM_DRIVE_COUNT]
    norm_num
    by_cases h : blk < size / 512
    · rw [if_neg (by omega), if_pos h]
    · rw [if_pos (by omega), if_neg h]
  · intro blk ok
    simp [smartport_read_block, MII_SM_DRIVE_COUNT]
  · intro drives blk ok
    simp [smartport_read_block]
  · intro drives u blk ok
    simp [smartport_read_block, MII_SM_DRIVE_COUNT]

/-! ### DSK sector-map selection lemmas (claim C7) -/

theorem toNat_ofNat_small (n : Nat) (h : n < 55296) : (Char.ofNat n).toNat = n := by
  rw [Char.ofNat, dif_pos (Or.inl h)]
  simp [Char.ofNatAux, Char.toNat, UInt32.toNat]

theorem cLower_dot_iff (c : Char) : cLower c = '.' ↔ c = '.' := by
  constructor
  · intro h
    unfold cLower at h
    split at h
    · rename_i hc
      have h2 := congrArg Char.toNat h
      rw [toNat_ofNat_small _ (by omega)] at h2
      have hd : ('.').toNat = 46 := by decide
      omega
    · exact h
  · intro h
    subst h
    decide

theorem strrchr_cases (c : Char) (p : List Char) :
    (strrchrSuffix c p = none ∧ c ∉ p) ∨
    (∃ pre ext, strrchrSuffix c p = some (c :: ext) ∧ p = pre ++ c :: ext ∧ c ∉ ext) := by
  induction p with
  | nil => exact Or.inl ⟨rfl, by simp⟩
  | cons a rest ih =>
    rcases ih with ⟨h1, h2⟩ | ⟨pre, ext, h1, h2, h3⟩
    · by_cases hac : a = c
      · refine Or.inr ⟨[], rest, ?_, by simp [hac], h2⟩
        simp [strrchrSuffix, h1, hac]
      · refine Or.inl ⟨?_, by simp [hac, h2, Ne.symm]⟩
        · simp [strrchrSuffix, h1, hac]
    · refine Or.inr ⟨a :: pre, ext, ?_, by simp [h2], h3⟩
      simp [strrchrSuffix, h1]

theorem take3_iff (el preL : List Char) (hne : '.' ∉ el) :
    ((el.reverse ++ '.' :: preL).take 3 = ['o', 'p', '.']) ↔ el = ['p', 'o'] := by
  rcases el with _ | ⟨a, _ | ⟨b, _ | ⟨c, t⟩⟩⟩
  · simp
  · simp
  · simp [List.take_append_eq_append_take]
    exact and_comm
  · constructor
    · intro h
      exfalso
      have hlen : 3 ≤ (a :: b :: c :: t).reverse.length := by simp
      rw [List.take_append_eq_append_take, Nat.sub_eq_zero_of_le hlen, List.take_zero,
        List.append_nil] at h
      have hdot : '.' ∈ ((a :: b :: c :: t).reverse.take 3) := by rw [h]; simp
      exact hne (List.mem_reverse.mp (List.take_subset _ _ hdot))
    · intro h
      simp at h

theorem secmap_sel (p : List Char) :
    dsk_secmap_for p = if spec_ext_is_po p then PO_SECMAP else DO_SECMAP := by
  rcases strrchr_cases '.' p with ⟨h1, h2⟩ | ⟨pre, ext, h1, h2, h3⟩
  · have hspec : spec_ext_is_po p = false := by
      unfold spec_ext_is_po
      rw [beq_eq_false_iff_ne]
      intro heq
      have hdot : '.' ∈ (p.map cLower).reverse.take 3 := by rw [heq]; simp
      have hmem : '.' ∈ p.map cLower := List.mem_reverse.mp (List.take_subset _ _ hdot)
      obtain ⟨x, hx, hcl⟩ := List.mem_map.mp hmem
      exact h2 ((cLower_dot_iff x).mp hcl ▸ hx)
    simp only [dsk_secmap_for, h1, hspec]
    simp
  · have hext : '.' ∉ ext.map cLower := by
      intro hmem
      obtain ⟨x, hx, hcl⟩ := List.mem_map.mp hmem
      exact h3 ((cLower_dot_iff x).mp hcl ▸ hx)
    have c1 : cLower '.' = '.' := by decide
    have cp : cLower 'p' = 'p' := by decide
    have co : cLower 'o' = 'o' := by decide
    have cP : cLower 'P' = 'p' := by decide
    have cO : cLower 'O' = 'o' := by decide
    have hspec : spec_ext_is_po p = (ext.map cLower == ['p', 'o']) := by
      unfold spec_ext_is_po
      subst h2
      rw [List.map_append, List.map_cons, List.reverse_append, List.reverse_cons, c1]
      simp only [List.append_assoc, List.singleton_append]
      by_cases hpo : ext.map cLower = ['p', 'o']
      · rw [hpo, beq_iff_eq.mpr rfl]
        simp [List.take_append_eq_append_take]
      · have hiff := take3_iff (ext.map cLower) ((pre.map cLower).reverse) hext
        rw [beq_eq_false_iff_ne.mpr hpo, beq_eq_false_iff_ne.mpr]
        intro hc
        exact hpo (hiff.mp hc)
    simp only [dsk_secmap_for, h1, hspec]
    simp only [strCaseEq, List.map_cons, List.map_nil, c1, cp, co, cP, cO]
    by_cases hpo : ext.map cLower = ['p', 'o']
    · rw [hpo]
      simp
    · rw [beq_eq_false_iff_ne.mpr hpo]
      have hb : ('.' :: ext.map cLower == ['.', 'p', 'o']) = false := by
        rw [beq_eq_false_iff_ne]
        intro hcon
        simp at hcon
        exact hpo (by simp [hcon])
      rw [hb]
      simp

/-- Claim C7: for every DSK-family image pathname, the converter reads
physical sector `phys` of track `t` from file offset
`(16·t + map[phys]) · 256`, where the map is the ProDOS order
{0,8,1,9,2,A,3,B,4,C,5,D,6,E,7,F} exactly when the filename extension
is .po (case-insensitive), and the DOS 3.3 order
{0,7,E,6,D,5,C,4,B,3,A,2,9,1,8,F} otherwise. -/
theorem dsk_sector_map_selection (p : List Char) (track phys_sector : Nat) :
    dsk_secmap_for p = (if spec_ext_is_po p then PO_SECMAP else DO_SECMAP) ∧
    dsk_sector_offset p track phys_sector =
      (16 * track + (if spec_ext_is_po p then PO_SECMAP else DO_SECMAP).getD phys_sector 0)
        * 256 ∧
    PO_SECMAP = [0x0, 0x8, 0x1, 0x9, 0x2, 0xa, 0x3, 0xb, 0x4, 0xc, 0x5, 0xd, 0x6, 0xe, 0x7, 0xf] ∧
    DO_SECMAP = [0x0, 0x7, 0xE, 0x6, 0xD, 0x5, 0xC, 0x4, 0xB, 0x3, 0xA, 0x2, 0x9, 0x1, 0x8, 0xF] := by
  refine ⟨secmap_sel p, ?_, rfl, rfl⟩
  unfold dsk_sector_offset DSK_SECTORS DSK_SECTOR_SIZE
  rw [secmap_sel p]

/-- Claim C6 counterexample: the complete BDSK container, laid out as the
source computes it (records of 4 + 6656 bytes at offsets 8 + t·6660 for
t in 0..34), ends at byte 8 + 35·(4 + 6656) = 233 108 — not at 232 988
as the claim asserts; 8 + 35·(4 + 6656) is arithmetically not 232 988. -/
theorem bdsk_total_size_counterexample :
    bdsk_track_offset BDSK_TRACKS = 233108 ∧ BDSK_BYTES = 233108 ∧
    (bdsk_track_offset BDSK_TRACKS = 232988 → False) := by
  refine ⟨by decide, by decide, by decide⟩

/-- Claim C6 as amended (spec-modelled container types): the BDSK side
file is an 8-byte header (magic "BDSK", version 1, 35 tracks) followed
by 35 fixed-size records of a 4-byte bit_count and 6656 data bytes;
track t's record sits at offset 8 + t·(4 + 6656), consecutive records
abut, every byte below the total belongs to the header or to exactly
one record, and the complete file is exactly 8 + 35·(4+6656) = 233 108
bytes (the claim's figure of 232 988 miscomputes that product). -/
theorem bdsk_layout_total_size :
    (∀ t, bdsk_track_offset t = 8 + t * 6660) ∧
    (∀ t, t < BDSK_TRACKS → bdsk_track_offset t + BDSK_DESC_SIZE + BDSK_TRACK_DATA_SIZE =
      bdsk_track_offset (t + 1)) ∧
    BDSK_BYTES = 8 + 35 * (4 + 6656) ∧
    bdsk_track_offset BDSK_TRACKS = 233108 ∧
    bdsk_header_bytes.length = BDSK_HEADER_SIZE ∧
    bdsk_header_bytes = [66, 68, 83, 75, 1, 0, 35, 0] ∧
    (∀ b, b < 233108 → b < BDSK_HEADER_SIZE ∨
      ∃ t, t < BDSK_TRACKS ∧ bdsk_track_offset t ≤ b ∧ b < bdsk_track_offset (t + 1)) ∧
    (∀ t1 t2, t1 < t2 → bdsk_track_offset t1 + BDSK_DESC_SIZE + BDSK_TRACK_DATA_SIZE ≤
      bdsk_track_offset t2) := by
  refine ⟨?_, ?_, by decide, by decide, by decide, rfl, ?_, ?_⟩
  · intro t
    simp only [bdsk_track_offset, BDSK_HEADER_SIZE, BDSK_DESC_SIZE, BDSK_TRACK_DATA_SIZE]
  · intro t _
    simp only [bdsk_track_offset, BDSK_HEADER_SIZE, BDSK_DESC_SIZE, BDSK_TRACK_DATA_SIZE]
    omega
  · intro b hb
    by_cases h8 : b < 8
    · exact Or.inl h8
    · refine Or.inr ⟨(b - 8) / 6660, ?_, ?_, ?_⟩ <;>
        simp only [bdsk_track_offset, BDSK_TRACKS, BDSK_HEADER_SIZE, BDSK_DESC_SIZE,
          BDSK_TRACK_DATA_SIZE] <;>
        omega
  · intro t1 t2 h
    simp only [bdsk_track_offset, BDSK_DESC_SIZE, BDSK_TRACK_DATA_SIZE]
    omega

theorem bdsk_layout_total_size_witness :
    (232000 < 233108) ∧
    (232000 < BDSK_HEADER_SIZE ∨
      ∃ t, t < BDSK_TRACKS ∧ bdsk_track_offset t ≤ 232000 ∧ 232000 < bdsk_track_offset (t + 1)) ∧
    (0 < BDSK_TRACKS) ∧
    bdsk_track_offset 0 + BDSK_DESC_SIZE + BDSK_TRACK_DATA_SIZE = bdsk_track_offset 1 := by
  refine ⟨by norm_num, ?_, by decide, ?_⟩
  · exact bdsk_layout_total_size.2.2.2.2.2.2.1 232000 (by norm_num)
  · exact bdsk_layout_total_size.2.1 0 (by decide)

/-- Claim C8 (spec-modelled floppy structure and mii_floppy_init): a
successful disk_mount_to_emulator with preserve_state true leaves the
drive's motor, stepper, qtrack and bit_position fields exactly as they
were before the call, for any image loader that only touches track and
bitstream state (as the DSK/NIB/WOZ/BDSK loaders do). -/
theorem mount_preserve_state (f : Floppy) (load : Floppy → Floppy)
    (hload : ∀ g : Floppy, (load g).motor = g.motor ∧ (load g).stepper = g.stepper ∧
      (load g).qtrack = g.qtrack ∧ (load g).bit_position = g.bit_position) :
    (disk_mount_to_emulator_floppy f true load).motor = f.motor ∧
    (disk_mount_to_emulator_floppy f true load).stepper = f.stepper ∧
    (disk_mount_to_emulator_floppy f true load).qtrack = f.qtrack ∧
    (disk_mount_to_emulator_floppy f true load).bit_position = f.bit_position := by
  simp only [disk_mount_to_emulator_floppy, if_true, hload]
  refine ⟨?_, ?_, ?_, ?_⟩ <;> (split <;> simp [disk_write_track_model])

theorem mount_preserve_state_witness :
    (∀ g : Floppy, ((fun h => disk_load_floppy_bdsk_track h 12 4000) g).motor = g.motor ∧
      ((fun h => disk_load_floppy_bdsk_track h 12 4000) g).stepper = g.stepper ∧
      ((fun h => disk_load_floppy_bdsk_track h 12 4000) g).qtrack = g.qtrack ∧
      ((fun h => disk_load_floppy_bdsk_track h 12 4000) g).bit_position = g.bit_position) ∧
    (disk_mount_to_emulator_floppy
        ⟨1, 3, 48, 777, false, fun q => q / 4, fun _ => ⟨true, false, 50000⟩⟩ true
        (fun h => disk_load_floppy_bdsk_track h 12 4000)).qtrack = 48 := by
  have hload : ∀ g : Floppy, (disk_load_floppy_bdsk_track g 12 4000).motor = g.motor ∧
      (disk_load_floppy_bdsk_track g 12 4000).stepper = g.stepper ∧
      (disk_load_floppy_bdsk_track g 12 4000).qtrack = g.qtrack ∧
      (disk_load_floppy_bdsk_track g 12 4000).bit_position = g.bit_position := by
    intro g
    unfold disk_load_floppy_bdsk_track
    refine ⟨?_, ?_, ?_, ?_⟩ <;> (split <;> rfl)
  exact ⟨hload,
    (mount_preserve_state ⟨1, 3, 48, 777, false, fun q => q / 4, fun _ => ⟨true, false, 50000⟩⟩
      (fun h => disk_load_floppy_bdsk_track h 12 4000) hload).2.2.1⟩

/-! ### VBL timer lemmas (claim C2) -/

/-- Closed form of the VBL timer run from its registered state: within
each 17030-cycle frame the first 12480 cycles are the visible phase with
SWVBL clear and the remaining 4550 the blanking phase with bit 7 set. -/
theorem vblAfter_closed (c : Nat) :
    vblAfter c =
      if c % 17030 < 12480 then ⟨⟨0, 0x00, c / 17030⟩, 12480 - c % 17030⟩
      else ⟨⟨1, 0x80, c / 17030 + 1⟩, 17030 - c % 17030⟩ := by
  induction c with
  | zero => simp [vblAfter, vblTimerInit, MII_VBL_DOWN_CYCLES]
  | succ c ih =>
    have hstep : vblAfter (c + 1) = vblCycleStep (vblAfter c) := by
      simp [vblAfter, Function.iterate_succ_apply']
    rw [hstep, ih]
    have e1 := Nat.div_add_mod c 17030
    have e2 := Nat.div_add_mod (c + 1) 17030
    have hm : c % 17030 < 17030 := Nat.mod_lt _ (by norm_num)
    have hm2 : (c + 1) % 17030 < 17030 := Nat.mod_lt _ (by norm_num)
    by_cases h1 : c % 17030 < 12480
    · rw [if_pos h1]
      by_cases h2 : c % 17030 = 12479
      · have hm1 : (c + 1) % 17030 = 12480 := by omega
        have hd1 : (c + 1) / 17030 = c / 17030 := by omega
        have hr : (12480 - c % 17030) = 1 := by omega
        simp [vblCycleStep, mii_video_vbl_timer_cb, hr, hm1, hd1,
          MII_VBL_UP_CYCLES, MII_VBL_DOWN_CYCLES, VblTimer.mk.injEq, VblState.mk.injEq]
      · have hm1 : (c + 1) % 17030 = c % 17030 + 1 := by omega
        have hd1 : (c + 1) / 17030 = c / 17030 := by omega
        have hr : ¬(12480 - c % 17030 ≤ 1) := by omega
        simp [vblCycleStep, mii_video_vbl_timer_cb, hr, hm1, hd1]
        rw [if_pos (show c % 17030 + 1 < 12480 by omega)]
        simp [VblTimer.mk.injEq, VblState.mk.injEq]
        omega
    · rw [if_neg h1]
      by_cases h2 : c % 17030 = 17029
      · have hm1 : (c + 1) % 17030 = 0 := by omega
        have hd1 : (c + 1) / 17030 = c / 17030 + 1 := by omega
        have hr : (17030 - c % 17030) = 1 := by omega
        simp [vblCycleStep, mii_video_vbl_timer_cb, hr, hm1, hd1,
          MII_VBL_UP_CYCLES, MII_VBL_DOWN_CYCLES, VblTimer.mk.injEq, VblState.mk.injEq]
      · have hm1 : (c + 1) % 17030 = c % 17030 + 1 := by omega
        have hd1 : (c + 1) / 17030 = c / 17030 := by omega
        have hr : ¬(17030 - c % 17030 ≤ 1) := by omega
        simp [vblCycleStep, mii_video_vbl_timer_cb, hr, hm1, hd1]
        rw [if_neg (show ¬(c % 17030 + 1 < 12480) by omega)]
        simp [VblTimer.mk.injEq, VblState.mk.injEq]
        omega

/-- Claim C2: the VBL timer callback alternates between a visible phase
of 12 480 cycles and a blanking phase of 4 550 cycles; entering blanking
sets bit 7 of the SWVBL byte and increments frame_count, entering the
visible phase clears the bit; consequently, running the timer
cycle-by-cycle, SWVBL bit 7 is 1 for exactly 4 550 out of every 17 030
cycles (period 17030, duty count 4550 per frame) and flips exactly at
the two phase boundaries (monotonically within each frame). -/
theorem vbl_timer_phase_and_duty :
    (∀ b f, mii_video_vbl_timer_cb 1 ⟨0, b, f⟩ = (⟨1, 0x80, f + 1⟩, MII_VBL_UP_CYCLES)) ∧
    (∀ p b f, mii_video_vbl_timer_cb 1 ⟨p + 1, b, f⟩ = (⟨0, 0x00, f⟩, MII_VBL_DOWN_CYCLES)) ∧
    (∀ c, (vblAfter c).st.swvbl = if 12480 ≤ c % 17030 then 0x80 else 0x00) ∧
    (∀ c, (vblAfter c).st.frame_count = c / 17030 + (if 12480 ≤ c % 17030 then 1 else 0)) ∧
    (∀ c, (vblAfter (c + 17030)).st.swvbl = (vblAfter c).st.swvbl) ∧
    ((Finset.range 17030).filter (fun c => ((vblAfter c).st.swvbl).testBit 7)).card = 4550 ∧
    (∀ c, ((vblAfter c).st.swvbl = (vblAfter (c + 1)).st.swvbl) ↔
      ¬((c + 1) % 17030 = 0 ∨ (c + 1) % 17030 = 12480)) := by
  have hsw : ∀ c, (vblAfter c).st.swvbl = if 12480 ≤ c % 17030 then 0x80 else 0x00 := by
    intro c
    rw [vblAfter_closed c]
    by_cases h : c % 17030 < 12480
    · rw [if_pos h, if_neg (by omega)]
    · rw [if_neg h, if_pos (by omega)]
  have hbit : ∀ c, ((vblAfter c).st.swvbl).testBit 7 = decide (12480 ≤ c % 17030) := by
    intro c
    rw [hsw c]
    by_cases h : 12480 ≤ c % 17030
    · rw [if_pos h, decide_eq_true h]
      decide
    · rw [if_neg h, decide_eq_false h]
      decide
  refine ⟨?_, ?_, hsw, ?_, ?_, ?_, ?_⟩
  · intro b f
    simp [mii_video_vbl_timer_cb, MII_VBL_UP_CYCLES]
  · intro p b f
    simp [mii_video_vbl_timer_cb, MII_VBL_DOWN_CYCLES]
  · intro c
    rw [vblAfter_closed c]
    by_cases h : c % 17030 < 12480
    · rw [if_pos h, if_neg (by omega)]
      rfl
    · rw [if_neg h, if_pos (by omega)]
  · intro c
    rw [hsw, hsw]
    have : (c + 17030) % 17030 = c % 17030 := by omega
    rw [this]
  · have hfilt : (Finset.range 17030).filter (fun c => ((vblAfter c).st.swvbl).testBit 7) =
        Finset.Ico 12480 17030 := by
      ext x
      simp only [Finset.mem_filter, Finset.mem_range, Finset.mem_Ico, hbit, decide_eq_true_eq]
      constructor
      · rintro ⟨hx, hge⟩
        rw [Nat.mod_eq_of_lt hx] at hge
        exact ⟨hge, hx⟩
      · rintro ⟨hge, hx⟩
        exact ⟨hx, by rw [Nat.mod_eq_of_lt hx]; exact hge⟩
    rw [hfilt, Nat.card_Ico]
  · intro c
    rw [hsw c, hsw (c + 1)]
    by_cases hA : 12480 ≤ c % 17030 <;> by_cases hB : 12480 ≤ (c + 1) % 17030 <;>
      simp [hA, hB] <;> omega

/-! ### Audio click lemmas (claims C3 and C4) -/

/-- Closed form of the clickFill loop: the write cursor advances by n
(mod the ring size), the n touched entries hold the fill value, and all
other entries are untouched. -/
theorem clickFill_spec (n : Nat) : ∀ (s : Nat → Int) (idx ridx : Nat) (v : Int),
    idx < 8192 →
    (clickFill s idx ridx v n).2.1 = (idx + n) % 8192 ∧
    (∀ j, j < n → (clickFill s idx ridx v n).1 ((idx + j) % 8192) = v) ∧
    (∀ a, (∀ j, j < n → (idx + j) % 8192 ≠ a) → (clickFill s idx ridx v n).1 a = s a) := by
  induction n with
  | zero =>
    intro s idx ridx v hidx
    refine ⟨by simp [clickFill, Nat.mod_eq_of_lt hidx], by simp, fun a _ => rfl⟩
  | succ n ih =>
    intro s idx ridx v hidx
    rw [clickFill]
    simp only [SAMPLE_BUFFER_SIZE]
    have hlt : (idx + 1) % 8192 < 8192 := Nat.mod_lt _ (by norm_num)
    obtain ⟨h1, h2, h3⟩ := ih (upd s idx v) ((idx + 1) % 8192)
      (if (idx + 1) % 8192 = ridx then (ridx + 1) % 8192 else ridx) v hlt
    refine ⟨?_, ?_, ?_⟩
    · rw [h1, Nat.mod_add_mod]
      congr 1
      omega
    · intro j hj
      match j with
      | 0 =>
        have hpos : (idx + 0) % 8192 = idx := by omega
        rw [hpos]
        by_cases hW : ∃ k, k < n ∧ ((idx + 1) % 8192 + k) % 8192 = idx
        · obtain ⟨k, hk, hkeq⟩ := hW
          have hv := h2 k hk
          rw [hkeq] at hv
          exact hv
        · rw [h3 idx (fun k hk hkeq => hW ⟨k, hk, hkeq⟩)]
          simp [upd]
      | j + 1 =>
        have hpos : (idx + (j + 1)) % 8192 = ((idx + 1) % 8192 + j) % 8192 := by
          rw [Nat.mod_add_mod]
          congr 1
          omega
        rw [hpos]
        exact h2 j (by omega)
    · intro a ha
      have hane : idx ≠ a := by
        have := ha 0 (by omega)
        rwa [show (idx + 0) % 8192 = idx by omega] at this
      rw [h3 a ?_]
      · simp [upd, Ne.symm hane]
      · intro k hk
        have heq : ((idx + 1) % 8192 + k) % 8192 = (idx + (k + 1)) % 8192 := by
          rw [Nat.mod_add_mod]
          congr 1
          omega
        rw [heq]
        exact ha (k + 1) (by omega)

theorem click_fill_path (sb : SampleBuffer) (cycle : Nat) (d : Nat)
    (hw : sb.write_index < 8192)
    (hcur : sb.curr_sample_frac < 2 ^ 64)
    (hnew : cycle * samples_per_cycle_frac < 2 ^ 64)
    (hd : (cycle * samples_per_cycle_frac) >>> 16 = sb.curr_sample_frac >>> 16 + d)
    (hd1 : 1 ≤ d) (hd2 : d ≤ 512) :
    (mii_audio_speaker_click sb cycle).write_index = (sb.write_index + d) % 8192 ∧
    (∀ j, j < d → (mii_audio_speaker_click sb cycle).samples
      ((sb.write_index + j) % 8192) = sb.speaker_value) ∧
    (mii_audio_speaker_click sb cycle).speaker_value = -sb.speaker_value ∧
    (mii_audio_speaker_click sb cycle).curr_sample_frac = cycle * samples_per_cycle_frac ∧
    (mii_audio_speaker_click sb cycle).read_index =
      (clickFill sb.samples sb.write_index sb.read_index sb.speaker_value d).2.2 := by
  have hmod : (cycle * samples_per_cycle_frac) % 2 ^ 64 = cycle * samples_per_cycle_frac :=
    Nat.mod_eq_of_lt hnew
  have hwrap : wrapSub64 ((cycle * samples_per_cycle_frac) >>> 16)
      (sb.curr_sample_frac >>> 16) = d := by
    unfold wrapSub64
    have h1 : sb.curr_sample_frac >>> 16 < 2 ^ 64 := by
      rw [Nat.shiftRight_eq_div_pow]
      exact lt_of_le_of_lt (Nat.div_le_self _ _) hcur
    rw [hd, Nat.mod_eq_of_lt h1]
    omega
  have htoi : toInt64 d = (d : Int) := by
    unfold toInt64
    rw [if_pos (by omega)]
  simp only [mii_audio_speaker_click, hmod, hwrap, htoi]
  rw [if_neg (show ¬((d : Int) ≤ 0) by omega)]
  rw [if_neg (show ¬((SAMPLE_BUFFER_OFFSET : Nat) < (d : Int)) by
    simp only [SAMPLE_BUFFER_OFFSET]; omega)]
  simp only [Int.toNat_natCast]
  have hmin : min d SAMPLE_BUFFER_SIZE = d := by
    simp only [SAMPLE_BUFFER_SIZE]
    omega
  rw [hmin]
  obtain ⟨h1, h2, h3⟩ := clickFill_spec d sb.samples sb.write_index sb.read_index
    sb.speaker_value hw
  simp only [SAMPLE_BUFFER_SIZE]
  refine ⟨h1, h2, ?_, ?_, ?_⟩ <;> trivial

/-- Claim C3 counterexample: from the freshly initialised buffer, a
click at cycle 23 followed by one at cycle 24: 23·sp = 65136 stays below
2^16, so the first click is a pure toggle (delta 0, anchor still 0) and
the claim's count for the second click is floor(((24-23)·sp) >> 16) = 0
appended entries — yet the code computes delta = floor(24·sp/2^16) -
floor(anchor/2^16) = 1 and appends one entry, moving the write index
from 512 to 513. -/
theorem speaker_click_count_counterexample :
    ((24 - 23) * samples_per_cycle_frac) >>> 16 = 0 ∧
    (mii_audio_speaker_click audioInitBuffer 23).write_index = SAMPLE_BUFFER_OFFSET ∧
    (mii_audio_speaker_click audioInitBuffer 23).curr_sample_frac = 0 ∧
    (mii_audio_speaker_click (mii_audio_speaker_click audioInitBuffer 23) 24).write_index
      = SAMPLE_BUFFER_OFFSET + 1 := by
  exact ⟨by decide, by decide, by decide, by decide⟩

/-- Claim C3 as amended: the second click appends exactly
floor((c2·sp) >> 16) − floor(curr >> 16) entries, the delta of absolute
integer sample positions against the buffer's rolling anchor
curr_sample_frac (equal to c1·sp when the click at c1 advanced the
anchor), each holding the speaker value current between the clicks, and
then inverts the speaker sign; this count equals
floor(((c2−c1)·sp) >> 16) or that value plus one (the extra one when the
fractional parts carry), not exactly the claimed expression. -/
theorem speaker_click_count_amended (sb : SampleBuffer) (c1 c2 d : Nat)
    (hanchor : sb.curr_sample_frac = c1 * samples_per_cycle_frac)
    (hc : c1 ≤ c2)
    (hw : sb.write_index < 8192)
    (hnew : c2 * samples_per_cycle_frac < 2 ^ 64)
    (hd : (c2 * samples_per_cycle_frac) >>> 16 = (c1 * samples_per_cycle_frac) >>> 16 + d)
    (hd1 : 1 ≤ d) (hd2 : d ≤ SAMPLE_BUFFER_OFFSET) :
    (mii_audio_speaker_click sb c2).write_index =
      (sb.write_index + d) % SAMPLE_BUFFER_SIZE ∧
    (∀ j, j < d → (mii_audio_speaker_click sb c2).samples
      ((sb.write_index + j) % SAMPLE_BUFFER_SIZE) = sb.speaker_value) ∧
    (mii_audio_speaker_click sb c2).speaker_value = -sb.speaker_value ∧
    (mii_audio_speaker_click sb c2).curr_sample_frac = c2 * samples_per_cycle_frac ∧
    ((c2 - c1) * samples_per_cycle_frac) >>> 16 ≤ d ∧
    d ≤ ((c2 - c1) * samples_per_cycle_frac) >>> 16 + 1 := by
  have hcur : sb.curr_sample_frac < 2 ^ 64 := by
    rw [hanchor]
    exact lt_of_le_of_lt (Nat.mul_le_mul_right _ hc) hnew
  have hd512 : d ≤ 512 := by simpa [SAMPLE_BUFFER_OFFSET] using hd2
  obtain ⟨h1, h2, h3, h4, _⟩ := click_fill_path sb c2 d hw hcur hnew
    (by rw [hanchor]; exact hd) hd1 hd512
  refine ⟨by simpa [SAMPLE_BUFFER_SIZE] using h1,
    fun j hj => by simpa [SAMPLE_BUFFER_SIZE] using h2 j hj, h3, h4, ?_, ?_⟩
  · rw [Nat.sub_mul, Nat.shiftRight_eq_div_pow] at *
    have hle : c1 * samples_per_cycle_frac ≤ c2 * samples_per_cycle_frac :=
      Nat.mul_le_mul_right _ hc
    omega
  · rw [Nat.sub_mul, Nat.shiftRight_eq_div_pow] at *
    have hle : c1 * samples_per_cycle_frac ≤ c2 * samples_per_cycle_frac :=
      Nat.mul_le_mul_right _ hc
    omega

theorem speaker_click_count_amended_witness :
    audioInitBuffer.curr_sample_frac = 0 * samples_per_cycle_frac ∧
    (0 ≤ 30 ∧ 1 ≤ 1) ∧
    (mii_audio_speaker_click audioInitBuffer 30).write_index =
      (audioInitBuffer.write_index + 1) % SAMPLE_BUFFER_SIZE ∧
    (mii_audio_speaker_click audioInitBuffer 30).speaker_value =
      -audioInitBuffer.speaker_value := by
  have h := speaker_click_count_amended audioInitBuffer 0 30 1 rfl (by decide) (by decide)
    (by decide) (by decide) (by decide) (by decide)
  exact ⟨rfl, ⟨by decide, by decide⟩, h.1, h.2.2.1⟩

/-- Claim C4 counterexample: a click at cycle 11849 from the initial
buffer yields delta = floor(11849·sp / 2^16) = 512 =
SAMPLE_BUFFER_OFFSET exactly; the re-anchoring path would set the write
index to read_index + 512 = 512 and fill nothing, but the code (whose
test is strictly `delta > SAMPLE_BUFFER_OFFSET`) takes the fill path:
it fills 512 ring entries (samples[512] = 256) and moves the write index
to 1024. -/
theorem click_offset_boundary_counterexample :
    (11849 * samples_per_cycle_frac) >>> 16 = SAMPLE_BUFFER_OFFSET ∧
    audioInitBuffer.curr_sample_frac >>> 16 = 0 ∧
    (mii_audio_speaker_click audioInitBuffer 11849).write_index = 1024 ∧
    (mii_audio_speaker_click audioInitBuffer 11849).samples 512 = 256 ∧
    (audioInitBuffer.read_index + SAMPLE_BUFFER_OFFSET) % SAMPLE_BUFFER_SIZE = 512 := by
  exact ⟨by decide, by decide, by decide, by decide, by decide⟩

/-- Claim C4 as amended: a click whose computed sample delta is exactly
SAMPLE_BUFFER_OFFSET (512) takes the normal fill path — it fills 512
ring entries with the current speaker value, advances the write index by
512, and inverts the sign; the re-anchoring path is taken only when the
delta strictly exceeds SAMPLE_BUFFER_OFFSET. -/
theorem click_offset_boundary_amended (sb : SampleBuffer) (cycle : Nat)
    (hw : sb.write_index < 8192)
    (hcur : sb.curr_sample_frac < 2 ^ 64)
    (hnew : cycle * samples_per_cycle_frac < 2 ^ 64)
    (hd : (cycle * samples_per_cycle_frac) >>> 16 =
      sb.curr_sample_frac >>> 16 + SAMPLE_BUFFER_OFFSET) :
    (mii_audio_speaker_click sb cycle).write_index =
      (sb.write_index + SAMPLE_BUFFER_OFFSET) % SAMPLE_BUFFER_SIZE ∧
    (∀ j, j < SAMPLE_BUFFER_OFFSET → (mii_audio_speaker_click sb cycle).samples
      ((sb.write_index + j) % SAMPLE_BUFFER_SIZE) = sb.speaker_value) ∧
    (mii_audio_speaker_click sb cycle).speaker_value = -sb.speaker_value := by
  obtain ⟨h1, h2, h3, _, _⟩ := click_fill_path sb cycle 512 hw hcur hnew
    (by simpa [SAMPLE_BUFFER_OFFSET] using hd) (by omega) (by omega)
  exact ⟨by simpa [SAMPLE_BUFFER_SIZE, SAMPLE_BUFFER_OFFSET] using h1,
    fun j hj => by
      simpa [SAMPLE_BUFFER_SIZE] using h2 j (by simpa [SAMPLE_BUFFER_OFFSET] using hj),
    h3⟩

theorem click_offset_boundary_amended_witness :
    (11849 * samples_per_cycle_frac) >>> 16 =
      audioInitBuffer.curr_sample_frac >>> 16 + SAMPLE_BUFFER_OFFSET ∧
    (mii_audio_speaker_click audioInitBuffer 11849).write_index =
      (audioInitBuffer.write_index + SAMPLE_BUFFER_OFFSET) % SAMPLE_BUFFER_SIZE := by
  have h := click_offset_boundary_amended audioInitBuffer 11849 (by decide) (by decide)
    (by decide) (by decide)
  exact ⟨by decide, h.1⟩

/-! ## Claim C1: paged-RAM cache coherence -/

theorem findVictim_spec (v : Vram)
    (hex : ∃ w, w < 256 ∧ (v.v_desc w).in_ram = true ∧ (v.v_desc w).pinned = false) :
    ∃ w, findVictim v = some w ∧ w < 256 ∧ (v.v_desc w).in_ram = true ∧
      (v.v_desc w).pinned = false := by
  obtain ⟨w0, hw0, hin, hpin⟩ := hex
  have hmem : w0 ∈ (List.range 256).map (fun k => (v.oldest_vpage + k) % 256) := by
    rw [List.mem_map]
    refine ⟨(w0 + 256 - v.oldest_vpage % 256) % 256, ?_, by omega⟩
    rw [List.mem_range]
    exact Nat.mod_lt _ (by norm_num)
  have hsome : (((List.range 256).map fun k => (v.oldest_vpage + k) % 256).find?
      (fun w => (v.v_desc w).in_ram && !(v.v_desc w).pinned)).isSome := by
    rw [List.find?_isSome]
    exact ⟨w0, hmem, by rw [hin, hpin]; rfl⟩
  obtain ⟨w, hw⟩ := Option.isSome_iff_exists.mp hsome
  have hmemw := List.mem_of_find?_eq_some hw
  have hpw := List.find?_some hw
  simp only [Bool.and_eq_true, Bool.not_eq_true'] at hpw
  refine ⟨w, hw, ?_, hpw.1, hpw.2⟩
  obtain ⟨k, _, hk⟩ := List.mem_map.mp hmemw
  omega

/-- Interval disjointness of distinct 256-byte pages. -/
theorem page_disjoint {p q a : Nat} (hne : p ≠ q) (h1 : p * 256 ≤ a) (h2 : a < p * 256 + 256) :
    ¬(q * 256 ≤ a ∧ a < q * 256 + 256) := by omega

theorem evict_refill_models (v : Vram) (A : Nat → Nat) (p w : Nat) (v2 : Vram)
    (C1 : ∀ vp, vp < 256 → ∀ off, off < 256 → (v.v_desc vp).in_ram = true →
      v.raw ((v.v_desc vp).lba * 256 + off) = A (vp * 256 + off))
    (C2 : ∀ vp, vp < 256 → ∀ off, off < 256 → (v.v_desc vp).in_ram = false →
      v.file (vp * 256 + off) = A (vp * 256 + off))
    (C3 : ∀ vp, vp < 256 → ∀ off, off < 256 → (v.v_desc vp).in_ram = true →
      v.s_dirty ((v.v_desc vp).lba) = false → v.file (vp * 256 + off) = A (vp * 256 + off))
    (C4 : ∀ vp1, vp1 < 256 → ∀ vp2, vp2 < 256 → (v.v_desc vp1).in_ram = true →
      (v.v_desc vp2).in_ram = true → (v.v_desc vp1).lba = (v.v_desc vp2).lba → vp1 = vp2)
    (C5 : ∀ vp, vp < 256 → (v.v_desc vp).pinned = true → (v.v_desc vp).in_ram = true)
    (hp : p < 256) (hw : w < 256) (hpnotin : (v.v_desc p).in_ram = false)
    (hwin : (v.v_desc w).in_ram = true) (hwpin : (v.v_desc w).pinned = false)
    (hdesc_other : ∀ vp, vp ≠ w → v2.v_desc vp = v.v_desc vp)
    (hdesc_w : v2.v_desc w = ⟨(v.v_desc w).pinned, false, (v.v_desc w).lba⟩)
    (hraw : v2.raw = v.raw)
    (hdirty : v2.s_dirty = v.s_dirty)
    (hfile_other : ∀ a, ¬(w * 256 ≤ a ∧ a < w * 256 + 256) → v2.file a = v.file a)
    (hfile_w : ∀ off, off < 256 → v2.file (w * 256 + off) = A (w * 256 + off)) :
    vramModels (read_vram_block v2 p (v.v_desc w).lba) A ∧
    ((read_vram_block v2 p (v.v_desc w).lba).v_desc p).in_ram = true ∧
    ((read_vram_block v2 p (v.v_desc w).lba).v_desc p).lba = (v.v_desc w).lba := by
  have hpw : p ≠ w := fun h => by rw [h, hwin] at hpnotin; exact absurd hpnotin (by decide)
  set lb := (v.v_desc w).lba with hlb
  set v3 := read_vram_block v2 p lb with hv3
  have hdesc3 : ∀ vp, v3.v_desc vp =
      if vp = p then ⟨(v2.v_desc p).pinned, true, lb⟩ else v2.v_desc vp := by
    intro vp
    simp [hv3, read_vram_block, upd]
  have hdesc3p_in : (v3.v_desc p).in_ram = true := by rw [hdesc3, if_pos rfl]
  have hdesc3p_lba : (v3.v_desc p).lba = lb := by rw [hdesc3, if_pos rfl]
  have hdesc3p_pin : (v3.v_desc p).pinned = (v.v_desc p).pinned := by
    rw [hdesc3, if_pos rfl]
    show (v2.v_desc p).pinned = (v.v_desc p).pinned
    rw [hdesc_other p hpw]
  have hdesc3w_in : (v3.v_desc w).in_ram = false := by
    rw [hdesc3, if_neg (Ne.symm hpw), hdesc_w]
  have hdesc3w_pin : (v3.v_desc w).pinned = (v.v_desc w).pinned := by
    rw [hdesc3, if_neg (Ne.symm hpw), hdesc_w]
  have hdesc3o : ∀ vp, vp ≠ p → vp ≠ w → v3.v_desc vp = v.v_desc vp := by
    intro vp h1 h2
    rw [hdesc3, if_neg h1, hdesc_other vp h2]
  have hfile3 : ∀ a, v3.file a = v2.file a := fun a => rfl
  have hraw3 : ∀ a, v3.raw a =
      if lb * 256 ≤ a ∧ a < lb * 256 + 256 then v2.file (p * 256 + (a - lb * 256))
      else v2.raw a := by
    intro a
    simp [hv3, read_vram_block]
  have hdirty3 : ∀ l, v3.s_dirty l = if l = lb then false else v2.s_dirty l := by
    intro l
    simp [hv3, read_vram_block, upd]
  have hinj : ∀ vp, vp < 256 → vp ≠ w → (v.v_desc vp).in_ram = true →
      (v.v_desc vp).lba ≠ lb := by
    intro vp h1 h2 h3 heq
    exact h2 (C4 vp h1 w hw h3 hwin heq)
  have hfile2p : ∀ off, off < 256 → v2.file (p * 256 + off) = A (p * 256 + off) := by
    intro off hoff
    rw [hfile_other _ (page_disjoint hpw (by omega) (by omega)), C2 p hp off hoff hpnotin]
  refine ⟨⟨?_, ?_, ?_, ?_, ?_, ?_⟩, hdesc3p_in, hdesc3p_lba⟩
  · -- cached pages are backed by their physical page
    intro vp hvp off hoff hin
    by_cases hvpp : vp = p
    · rw [hvpp, hdesc3p_lba, hraw3, if_pos (by omega)]
      have heq2 : p * 256 + (lb * 256 + off - lb * 256) = p * 256 + off := by omega
      rw [heq2]
      exact hfile2p off hoff
    · have hvpw : vp ≠ w := by
        intro h
        rw [h, hdesc3w_in] at hin
        exact absurd hin (by decide)
      rw [hdesc3o vp hvpp hvpw] at hin ⊢
      have hne := hinj vp hvp hvpw hin
      rw [hraw3, if_neg (page_disjoint hne (by omega) (by omega)), hraw]
      exact C1 vp hvp off hoff hin
  · -- absent pages are backed by the swap file
    intro vp hvp off hoff hnin
    by_cases hvpp : vp = p
    · rw [hvpp, hdesc3p_in] at hnin
      exact absurd hnin (by decide)
    · by_cases hvpw : vp = w
      · rw [hvpw, hfile3]
        exact hfile_w off hoff
      · rw [hdesc3o vp hvpp hvpw] at hnin
        rw [hfile3, hfile_other _ (page_disjoint hvpw (by omega) (by omega))]
        exact C2 vp hvp off hoff hnin
  · -- clean cached pages also agree with the swap file
    intro vp hvp off hoff hin hnd
    by_cases hvpp : vp = p
    · rw [hvpp, hfile3]
      exact hfile2p off hoff
    · have hvpw : vp ≠ w := by
        intro h
        rw [h, hdesc3w_in] at hin
        exact absurd hin (by decide)
      rw [hdesc3o vp hvpp hvpw] at hin hnd
      have hne := hinj vp hvp hvpw hin
      rw [hdirty3, if_neg hne, hdirty] at hnd
      rw [hfile3, hfile_other _ (page_disjoint hvpw (by omega) (by omega))]
      exact C3 vp hvp off hoff hin hnd
  · -- distinct cached pages occupy distinct physical pages
    intro vp1 h1 vp2 h2 hin1 hin2 heq
    by_cases hv1p : vp1 = p <;> by_cases hv2p : vp2 = p
    · rw [hv1p, hv2p]
    · have hv2w : vp2 ≠ w := by
        intro h
        rw [h, hdesc3w_in] at hin2
        exact absurd hin2 (by decide)
      rw [hdesc3o vp2 hv2p hv2w] at hin2 heq
      rw [hv1p, hdesc3p_lba] at heq
      exact absurd heq.symm (hinj vp2 h2 hv2w hin2)
    · have hv1w : vp1 ≠ w := by
        intro h
        rw [h, hdesc3w_in] at hin1
        exact absurd hin1 (by decide)
      rw [hdesc3o vp1 hv1p hv1w] at hin1 heq
      rw [hv2p, hdesc3p_lba] at heq
      exact absurd heq (hinj vp1 h1 hv1w hin1)
    · have hv1w : vp1 ≠ w := by
        intro h
        rw [h, hdesc3w_in] at hin1
        exact absurd hin1 (by decide)
      have hv2w : vp2 ≠ w := by
        intro h
        rw [h, hdesc3w_in] at hin2
        exact absurd hin2 (by decide)
      rw [hdesc3o vp1 hv1p hv1w] at hin1 heq
      rw [hdesc3o vp2 hv2p hv2w] at hin2 heq
      exact C4 vp1 h1 vp2 h2 hin1 hin2 heq
  · -- pinned pages are cached
    intro vp hvp hpin
    by_cases hvpp : vp = p
    · rw [hvpp]
      exact hdesc3p_in
    · by_cases hvpw : vp = w
      · rw [hvpw, hdesc3w_pin, hwpin] at hpin
        exact absurd hpin (by decide)
      · rw [hdesc3o vp hvpp hvpw] at hpin ⊢
        exact C5 vp hvp hpin
  · -- an unpinned cached page exists
    refine ⟨p, hp, hdesc3p_in, ?_⟩
    rw [hdesc3p_pin]
    cases hb : (v.v_desc p).pinned
    · rfl
    · rw [C5 p hp hb] at hpnotin
      exact absurd hpnotin (by decide)

theorem get_ram_page_for_spec (v : Vram) (A : Nat → Nat) (addr : Nat)
    (hm : vramModels v A) (ha : addr < 65536) :
    ∃ lba v1, get_ram_page_for v addr = some (lba, v1) ∧ vramModels v1 A ∧
      (v1.v_desc (addr / 256)).in_ram = true ∧ (v1.v_desc (addr / 256)).lba = lba := by
  obtain ⟨C1, C2, C3, C4, C5, C6⟩ := hm
  have hshift : (addr % 65536) >>> 8 = addr / 256 := by
    rw [Nat.mod_eq_of_lt ha, Nat.shiftRight_eq_div_pow]
  have hplt : addr / 256 < 256 := by omega
  by_cases hin : (v.v_desc (addr / 256)).in_ram = true
  · refine ⟨(v.v_desc (addr / 256)).lba, v, ?_, ⟨C1, C2, C3, C4, C5, C6⟩, hin, rfl⟩
    simp only [get_ram_page_for, hshift]
    rw [if_pos hin]
  · have hnin : (v.v_desc (addr / 256)).in_ram = false := by
      cases hb : (v.v_desc (addr / 256)).in_ram
      · rfl
      · exact absurd hb hin
    obtain ⟨w, hfv, hw256, hwin, hwpin⟩ := findVictim_spec v C6
    have hred : get_ram_page_for v addr = some ((v.v_desc w).lba,
        read_vram_block
          (if v.s_dirty (v.v_desc w).lba then
            flush_vram_block { v with oldest_vpage := (w + 1) % 256 } w
          else
            { v with
              oldest_vpage := (w + 1) % 256,
              v_desc := upd v.v_desc w ⟨(v.v_desc w).pinned, false, (v.v_desc w).lba⟩ })
          (addr / 256) (v.v_desc w).lba) := by
      simp only [get_ram_page_for, hshift]
      rw [if_neg hin, hfv]
    by_cases hdirty : v.s_dirty (v.v_desc w).lba = true
    · rw [if_pos hdirty] at hred
      have hres := evict_refill_models v A (addr / 256) w
        (flush_vram_block { v with oldest_vpage := (w + 1) % 256 } w)
        C1 C2 C3 C4 C5 hplt hw256 hnin hwin hwpin
        (by
          intro vp hvpw
          simp [flush_vram_block, upd, hvpw])
        (by simp [flush_vram_block, upd])
        rfl
        rfl
        (by
          intro a hrange
          simp only [flush_vram_block]
          rw [if_neg hrange])
        (by
          intro off hoff
          simp only [flush_vram_block]
          rw [if_pos (by omega)]
          have heq2 : (v.v_desc w).lba * 256 + (w * 256 + off - w * 256) =
              (v.v_desc w).lba * 256 + off := by omega
          show v.raw ((v.v_desc w).lba * 256 + (w * 256 + off - w * 256)) = A (w * 256 + off)
          rw [heq2]
          exact C1 w hw256 off hoff hwin)
      exact ⟨(v.v_desc w).lba, _, hred, hres.1, hres.2.1, hres.2.2⟩
    · have hclean : v.s_dirty (v.v_desc w).lba = false := by
        cases hb : v.s_dirty (v.v_desc w).lba
        · rfl
        · exact absurd hb hdirty
      rw [if_neg (by rw [hclean]; decide)] at hred
      have hres := evict_refill_models v A (addr / 256) w
        { v with
          oldest_vpage := (w + 1) % 256,
          v_desc := upd v.v_desc w ⟨(v.v_desc w).pinned, false, (v.v_desc w).lba⟩ }
        C1 C2 C3 C4 C5 hplt hw256 hnin hwin hwpin
        (by
          intro vp hvpw
          simp [upd, hvpw])
        (by simp [upd])
        rfl
        rfl
        (fun a _ => rfl)
        (by
          intro off hoff
          show v.file (w * 256 + off) = A (w * 256 + off)
          exact C3 w hw256 off hoff hwin hclean)
      exact ⟨(v.v_desc w).lba, _, hred, hres.1, hres.2.1, hres.2.2⟩


theorem bank_write_one_spec (v : Vram) (A : Nat → Nat) (addr val : Nat)
    (hm : vramModels v A) (ha : addr < 65536) :
    ∃ v2, bank_write_paged v addr (fun _ => val) 1 = some v2 ∧
      vramModels v2 (upd A addr val) := by
  obtain ⟨lba, v1, hget, hm1, hin1, hlba1⟩ := get_ram_page_for_spec v A addr hm ha
  have hoff : addr % 256 < 256 := Nat.mod_lt _ (by norm_num)
  have hn : min 1 (256 - addr % 256) = 1 := by omega
  have haddr : addr = (addr / 256) * 256 + addr % 256 := by omega
  have hplt : addr / 256 < 256 := by omega
  obtain ⟨D1, D2, D3, D4, D5, D6⟩ := hm1
  have heval : bank_write_paged v addr (fun _ => val) 1 = some
      { v1 with
        s_dirty := upd v1.s_dirty lba true,
        raw := fun a =>
          if lba * 256 + addr % 256 ≤ a ∧ a < lba * 256 + addr % 256 + 1 then val
          else v1.raw a } := by
    rw [bank_write_paged]
    rw [if_neg (by decide : ¬(1 = 0))]
    simp only [hget, hn]
    rw [bank_write_paged]
    rw [if_pos (by norm_num : 1 - 1 = 0)]
  refine ⟨_, heval, ?_, ?_, ?_, ?_, ?_, ?_⟩
  · intro vp hvp off hoffl hin
    by_cases hvpp : vp = addr / 256
    · subst hvpp
      rw [hlba1]
      by_cases hoffe : off = addr % 256
      · subst hoffe
        show (if lba * 256 + addr % 256 ≤ lba * 256 + addr % 256 ∧
            lba * 256 + addr % 256 < lba * 256 + addr % 256 + 1 then val
          else v1.raw (lba * 256 + addr % 256)) = upd A addr val (addr / 256 * 256 + addr % 256)
        rw [if_pos (by omega)]
        rw [upd, if_pos (by omega)]
      · show (if lba * 256 + addr % 256 ≤ lba * 256 + off ∧
            lba * 256 + off < lba * 256 + addr % 256 + 1 then val
          else v1.raw (lba * 256 + off)) = upd A addr val (addr / 256 * 256 + off)
        rw [if_neg (by omega)]
        rw [upd, if_neg (by omega)]
        have := D1 (addr / 256) hplt off hoffl hin1
        rw [hlba1] at this
        exact this
    · have hlne : (v1.v_desc vp).lba ≠ lba := by
        intro hco
        exact hvpp (D4 vp hvp (addr / 256) hplt hin hin1 (by rw [hco, hlba1]))
      show (if lba * 256 + addr % 256 ≤ (v1.v_desc vp).lba * 256 + off ∧
          (v1.v_desc vp).lba * 256 + off < lba * 256 + addr % 256 + 1 then val
        else v1.raw ((v1.v_desc vp).lba * 256 + off)) = upd A addr val (vp * 256 + off)
      rw [if_neg (by omega)]
      rw [upd, if_neg (by omega)]
      exact D1 vp hvp off hoffl hin
  · intro vp hvp off hoffl hnin
    have hvpp : vp ≠ addr / 256 := by
      intro hco
      rw [hco, hin1] at hnin
      exact absurd hnin (by decide)
    show v1.file (vp * 256 + off) = upd A addr val (vp * 256 + off)
    rw [upd, if_neg (by omega)]
    exact D2 vp hvp off hoffl hnin
  · intro vp hvp off hoffl hin hclean
    by_cases hvpp : vp = addr / 256
    · subst hvpp
      rw [hlba1] at hclean
      have hclean2 : upd v1.s_dirty lba true lba = false := hclean
      rw [upd, if_pos rfl] at hclean2
      exact absurd hclean2 (by decide)
    · have hlne : (v1.v_desc vp).lba ≠ lba := by
        intro hco
        exact hvpp (D4 vp hvp (addr / 256) hplt hin hin1 (by rw [hco, hlba1]))
      have hcl2 : v1.s_dirty ((v1.v_desc vp).lba) = false := by
        have h0 : upd v1.s_dirty lba true ((v1.v_desc vp).lba) = false := hclean
        rw [upd, if_neg hlne] at h0
        exact h0
      show v1.file (vp * 256 + off) = upd A addr val (vp * 256 + off)
      rw [upd, if_neg (by omega)]
      exact D3 vp hvp off hoffl hin hcl2
  · exact D4
  · exact D5
  · exact D6

theorem bank_read_one_spec (v : Vram) (A : Nat → Nat) (addr : Nat)
    (hm : vramModels v A) (ha : addr < 65536) :
    ∃ buf v1, bank_read_paged v addr (fun _ => 0) 0 1 = some (buf, v1) ∧
      buf 0 = A addr ∧ vramModels v1 A := by
  obtain ⟨lba, v1, hget, hm1, hin1, hlba1⟩ := get_ram_page_for_spec v A addr hm ha
  have hoff : addr % 256 < 256 := Nat.mod_lt _ (by norm_num)
  have hn : min 1 (256 - addr % 256) = 1 := by omega
  have heval : bank_read_paged v addr (fun _ => 0) 0 1 = some
      ((fun i => if 0 ≤ i ∧ i < 0 + 1 then v1.raw (lba * 256 + addr % 256 + (i - 0))
        else 0), v1) := by
    rw [bank_read_paged]
    rw [if_neg (by decide : ¬(1 = 0))]
    simp only [hget, hn]
    rw [bank_read_paged]
    rw [if_pos (by norm_num : 1 - 1 = 0)]
  refine ⟨_, _, heval, ?_, hm1⟩
  show (if 0 ≤ 0 ∧ 0 < 0 + 1 then v1.raw (lba * 256 + addr % 256 + (0 - 0)) else 0) = A addr
  rw [if_pos (by omega)]
  have hb := hm1.1 (addr / 256) (by omega) (addr % 256) hoff hin1
  rw [hlba1] at hb
  have haddr : addr / 256 * 256 + addr % 256 = addr := by omega
  rw [haddr] at hb
  simpa using hb

theorem execOp_spec (v : Vram) (A : Nat → Nat) (op : BankOp)
    (hm : vramModels v A) (ha : op.addr < 65536) :
    ∃ v1, execOp v op = some v1 ∧ vramModels v1 (absOp A op) := by
  cases op with
  | rd a =>
    obtain ⟨buf, v1, heval, hb, hm1⟩ := bank_read_one_spec v A a hm ha
    refine ⟨v1, ?_, hm1⟩
    show (bank_read_paged v a (fun _ => 0) 0 1).map Prod.snd = some v1
    rw [heval]
    rfl
  | wr a val =>
    obtain ⟨v2, heval, hm2⟩ := bank_write_one_spec v A a val hm ha
    exact ⟨v2, heval, hm2⟩

theorem execOps_spec (ops : List BankOp) (v : Vram) (A : Nat → Nat)
    (hm : vramModels v A) (hops : ∀ op ∈ ops, op.addr < 65536) :
    ∃ v1, execOps v ops = some v1 ∧ vramModels v1 (absOps A ops) := by
  induction ops generalizing v A with
  | nil => exact ⟨v, rfl, hm⟩
  | cons op rest ih =>
    obtain ⟨v1, he1, hm1⟩ := execOp_spec v A op hm (hops op (by simp))
    obtain ⟨v2, he2, hm2⟩ := ih v1 (absOp A op) hm1 (fun o ho => hops o (by simp [ho]))
    refine ⟨v2, ?_, hm2⟩
    show (match execOp v op with
      | none => none
      | some v1 => execOps v1 rest) = some v2
    rw [he1]
    exact he2

theorem absOps_untouched (ops : List BankOp) (A : Nat → Nat) (x : Nat)
    (hops : ∀ op ∈ ops, op.writesTo x = false) :
    absOps A ops x = A x := by
  induction ops generalizing A with
  | nil => rfl
  | cons op rest ih =>
    show absOps (absOp A op) rest x = A x
    rw [ih (absOp A op) (fun o ho => hops o (by simp [ho]))]
    cases op with
    | rd a => rfl
    | wr a w =>
      have h := hops (.wr a w) (by simp)
      rw [BankOp.writesTo] at h
      have hne : ¬ (x = a) := by
        intro hc
        subst hc
        simp at h
      show upd A a w x = A x
      rw [upd, if_neg hne]

/-- Claim C1: paged-RAM cache coherence.  From any state coherent with an
abstract guest memory, a one-byte mii_bank_write of `val` to `addr`,
followed by any sequence of in-range one-byte bank reads and writes none
of which writes to `addr` (each of which may evict and refill pages via
get_ram_page_for), followed by a one-byte mii_bank_read of `addr`, all
succeed and the read returns `val`. -/
theorem paged_ram_write_read_coherent (v : Vram) (A : Nat → Nat) (addr val : Nat)
    (ops : List BankOp) (hm : vramModels v A) (ha : addr < 65536)
    (hops : ∀ op ∈ ops, op.addr < 65536 ∧ op.writesTo addr = false) :
    ∃ v1 buf v2, execOps v (BankOp.wr addr val :: ops) = some v1 ∧
      bank_read_paged v1 addr (fun _ => 0) 0 1 = some (buf, v2) ∧ buf 0 = val := by
  obtain ⟨vw, hw, hmw⟩ := execOp_spec v A (.wr addr val) hm ha
  obtain ⟨v1, hseq, hm1⟩ :=
    execOps_spec ops vw (upd A addr val) hmw (fun o ho => (hops o ho).1)
  obtain ⟨buf, v2, hr, hb, hm2⟩ :=
    bank_read_one_spec v1 (absOps (upd A addr val) ops) addr hm1 ha
  refine ⟨v1, buf, v2, ?_, hr, ?_⟩
  · show (match execOp v (BankOp.wr addr val) with
      | none => none
      | some vx => execOps vx ops) = some v1
    rw [hw]
    exact hseq
  · rw [hb, absOps_untouched ops _ addr (fun o ho => (hops o ho).2)]
    rw [upd, if_pos rfl]

theorem vramDemo_models : vramModels vramDemo (fun _ => 0) := by
  refine ⟨?_, ?_, ?_, ?_, ?_, ?_⟩
  · intro vp hvp off hoff hin
    by_cases h0 : vp = 0
    · subst h0
      rfl
    · have : (vramDemo.v_desc vp).in_ram = false := by
        show (if vp = 0 then VramPage.mk false true 0 else VramPage.mk false false 0).in_ram = false
        rw [if_neg h0]
      rw [this] at hin
      exact absurd hin (by decide)
  · intro vp hvp off hoff _
    rfl
  · intro vp hvp off hoff _ _
    rfl
  · intro vp1 hvp1 vp2 hvp2 hin1 hin2 _
    by_cases h1 : vp1 = 0
    · by_cases h2 : vp2 = 0
      · rw [h1, h2]
      · have : (vramDemo.v_desc vp2).in_ram = false := by
          show (if vp2 = 0 then VramPage.mk false true 0
            else VramPage.mk false false 0).in_ram = false
          rw [if_neg h2]
        rw [this] at hin2
        exact absurd hin2 (by decide)
    · have : (vramDemo.v_desc vp1).in_ram = false := by
        show (if vp1 = 0 then VramPage.mk false true 0
          else VramPage.mk false false 0).in_ram = false
        rw [if_neg h1]
      rw [this] at hin1
      exact absurd hin1 (by decide)
  · intro vp hvp hpin
    by_cases h0 : vp = 0
    · subst h0
      rfl
    · have : (vramDemo.v_desc vp).pinned = false := by
        show (if vp = 0 then VramPage.mk false true 0 else VramPage.mk false false 0).pinned = false
        rw [if_neg h0]
      rw [this] at hpin
      exact absurd hpin (by decide)
  · exact ⟨0, by norm_num, rfl, rfl⟩

theorem paged_ram_write_read_coherent_witness :
    ∃ v1 buf v2, execOps vramDemo (BankOp.wr 8192 42 :: [BankOp.rd 768]) = some v1 ∧
      bank_read_paged v1 8192 (fun _ => 0) 0 1 = some (buf, v2) ∧ buf 0 = 42 :=
  paged_ram_write_read_coherent vramDemo (fun _ => 0) 8192 42 [BankOp.rd 768]
    vramDemo_models (by norm_num) (by decide)
